import Mathlib

/-!
Verification of the `rpc.py` protocol engine of the xmm7360-pci repository:
a shallow embedding of its wire codec (`pack` / `unpack` / `_pack_string` /
`take_asn_int`), its frame-header construction (lines 53-60 of
`XMMRPC.execute`), and its transaction dispatcher (`XMMRPC.handle_message`),
together with theorems settling the specification's claims about them.

Bytes are modelled as `Nat` (inputs of interest are `< 256`); byte strings as
`List Nat`; Python `dict` / `set` as association lists / lists; fallible
Python code (assertions, `struct` errors, popping from an empty buffer,
`KeyError`, `ValueError`) as `Option`.
-/

namespace XmmRpc

/-- Big-endian 4-byte encoding, as produced by `struct.pack('>L', n)`.
(Python raises for `n ≥ 2^32`; theorems carry that bound as a hypothesis.) -/
def be4 (n : Nat) : List Nat :=
  [n / 16777216 % 256, n / 65536 % 256, n / 256 % 256, n % 256]

/-- Little-endian 4-byte encoding, as produced by `struct.pack('<L', n)`. -/
def le4 (n : Nat) : List Nat :=
  [n % 256, n / 256 % 256, n / 65536 % 256, n / 16777216 % 256]

/-- Big-endian 2-byte encoding, as produced by `struct.pack('>H', n)`. -/
def be2 (n : Nat) : List Nat := [n / 256 % 256, n % 256]

/-- `asn_int4(val)` (rpc.py line 12): `b'\x02\x04' + struct.pack('>L', val)`. -/
def asn_int4 (val : Nat) : List Nat := 2 :: 4 :: be4 val

/-- `take_asn_int(data)` (rpc.py lines 159-166): pop a `0x02` tag byte, a
length byte `l`, then fold `l` payload bytes big-endian via
`val <<= 8; val |= byte`.  Popping past the end of the buffer or a wrong tag
byte is a Python error, modelled as `none`. -/
def take_asn_int (data : List Nat) : Option (Nat × List Nat) :=
  match data with
  | 2 :: l :: rest =>
    if l ≤ rest.length then
      some ((rest.take l).foldl (fun a b => (a <<< 8) ||| b) 0, rest.drop l)
    else none
  | _ => none

/-- The `while remain > 0` loop of `_pack_string` (rpc.py lines 147-150)
collects the base-256 digits of `remain` least-significant first (they are
re-ordered by the repeated `insert(1, ·)`; see `validField`).  Structured
with a fuel argument (`n` itself) so that the definition evaluates by kernel
reduction; `n / 256 < n` for `n ≠ 0`, so the fuel always suffices. -/
def lsbBytesAux : Nat → Nat → List Nat
  | 0, _ => []
  | fuel + 1, n => if n = 0 then [] else n % 256 :: lsbBytesAux fuel (n / 256)

def lsbBytes (n : Nat) : List Nat := lsbBytesAux n n

/-- The occupied-count field of `_pack_string` (rpc.py lines 142-150): a
single byte when `valid < 128`, else a lead byte `0x80 + k` followed by the
`k` base-256 digits of `valid`.  Each digit is `insert`ed at position 1, so
the final order is most-significant first. -/
def validField (valid : Nat) : List Nat :=
  if valid < 128 then [valid]
  else (128 + (lsbBytes valid).length) :: (lsbBytes valid).reverse

/-- `len(struct.pack(elem_type, 0))` (rpc.py line 135) for the element-type
characters modelled here, with CPython's native sizes on the x86-64 Linux
platform this repository targets: `B` → 1, `H` → 2, `I` → 4.  Other
characters are not modelled (note that native `'L'` has size 8 there, which
`_pack_string`'s `{1: 0x55, 2: 0x56, 4: 0x57}` table would reject anyway). -/
def elemSize : Char → Option Nat
  | 'B' => some 1
  | 'H' => some 2
  | 'I' => some 4
  | _ => none

/-- The `{1: 0x55, 2: 0x56, 4: 0x57}` lookup of rpc.py line 136 (`KeyError`
for any other size → `none`). -/
def fieldTag : Nat → Option Nat
  | 1 => some 0x55
  | 2 => some 0x56
  | 4 => some 0x57
  | _ => none

/-- Native-order (little-endian) fixed-width encoding of one element, as in
`struct.pack('%d%s' % (valid, elem_type), *val)` (rpc.py line 137). -/
def natLE (esz e : Nat) : List Nat := (List.range esz).map fun i => e / 256 ^ i % 256

/-- The packed element payload of rpc.py line 137; `struct.pack` raises when
an element exceeds its width, modelled as `none`. -/
def packElems (esz : Nat) : List Nat → Option (List Nat)
  | [] => some []
  | e :: t =>
    if e < 256 ^ esz then (packElems esz t).map (fun r => natLE esz e ++ r)
    else none

/-- `int(length_str)` for the decimal digit prefix popped off the format
list (rpc.py lines 127-131). -/
def digitsToNat (ds : List Char) : Nat := ds.foldl (fun a c => a * 10 + (c.toNat - 48)) 0

/-- `_pack_string(val, fmt, elem_type)` (rpc.py lines 126-157).  The Python
function pops the leading decimal digits off the (mutable) format list; here
the digits are read with `takeWhile` and the caller (`pack`) continues with
the corresponding `dropWhile`.  `pack('LL', count, padding)` on line 154 is
the module-level `pack`, i.e. two `asn_int4` fields, and raises (→ `none`)
when either value is `≥ 2^32`. -/
def _pack_string (val : List Nat) (fmt : List Char) (elemType : Char) : Option (List Nat) :=
  let ds := fmt.takeWhile Char.isDigit
  if ds = [] then none   -- int('') raises ValueError
  else
    let length := digitsToNat ds
    if val.length > length then none   -- assert len(val) <= length
    else
      match elemSize elemType with
      | none => none
      | some esz =>
        match fieldTag esz with
        | none => none
        | some ftag =>
          match packElems esz val with
          | none => none
          | some payload =>
            let count := length * esz
            let padding := (length - val.length) * esz
            if count < 4294967296 ∧ padding < 4294967296 then
              some (ftag :: validField val.length ++ asn_int4 count ++ asn_int4 padding
                    ++ payload ++ List.replicate padding 0)
            else none

/-- A typed wire value: a scalar integer or an element array.  `pack` takes
arrays as element lists; `unpack` returns the raw payload bytes of an array
field (for one-byte elements these coincide). -/
inductive Value
  | i (n : Nat)
  | arr (bs : List Nat)
deriving DecidableEq

/-- `pack(fmt, *args)` (rpc.py lines 203-229).  Each loop iteration pops one
argument first (`IndexError` → `none` when the arguments run out); leftover
arguments after the format is exhausted raise `ValueError` → `none`; an
unknown format character raises → `none`.  Digits following `'s'`/`'S'` are
consumed by `_pack_string`, hence the `dropWhile` in the recursive call. -/
def pack : List Char → List Value → Option (List Nat)
  | [], [] => some []
  | [], _ :: _ => none
  | _ :: _, [] => none
  | ch :: ft, a :: args =>
    match ch, a with
    | 'B', .i n => if n < 256 then (pack ft args).map (fun r => 2 :: 1 :: n :: r) else none
    | 'H', .i n => if n < 65536 then (pack ft args).map (fun r => 2 :: 2 :: be2 n ++ r) else none
    | 'L', .i n => if n < 4294967296 then (pack ft args).map (fun r => asn_int4 n ++ r) else none
    | 's', .arr v =>
      match _pack_string v ft 'B' with
      | none => none
      | some field => (pack (ft.dropWhile Char.isDigit) args).map (fun r => field ++ r)
    | 'S', .arr v =>
      match ft with
      | [] => none
      | et :: ft2 =>
        match _pack_string v ft2 et with
        | none => none
        | some field => (pack (ft2.dropWhile Char.isDigit) args).map (fun r => field ++ r)
    | _, _ => none

/-- The extended-length loop of `unpack` (rpc.py lines 180-183):
`value |= data.pop(0) << (byte*8)` for the given number of bytes. -/
def readLSB : Nat → List Nat → Option (Nat × List Nat)
  | 0, d => some (0, d)
  | _ + 1, [] => none
  | k + 1, b :: d => (readLSB k d).map fun p => (b ||| (p.1 <<< 8), p.2)

/-- `unpack(fmt, data)` (rpc.py lines 168-201).  `'n'` reads one generic
integer; `'s'` reads an array field: type tag in {0x55, 0x56, 0x57} (assert),
occupied count (single byte, or extended form when bit 7 of the first byte is
set: `valid & 0xf` further bytes, least-significant first), scaled ×2 / ×4
for tags 0x56 / 0x57, then two generic integers `count` and `padding` with
the cross-check `count == valid + padding` applied only when `count ≠ 0`;
the payload is the next `valid` bytes and the cursor advances by
`valid + padding`.  Any other format character raises → `none`. -/
def unpack : List Char → List Nat → Option (List Value)
  | [], _ => some []
  | 'n' :: ft, data =>
    match take_asn_int data with
    | none => none
    | some (v, d) => (unpack ft d).map (fun out => .i v :: out)
  | 's' :: ft, data =>
    match data with
    | [] => none
    | t :: d1 =>
      if t = 0x55 ∨ t = 0x56 ∨ t = 0x57 then
        match d1 with
        | [] => none
        | v0 :: d2 =>
          match (if v0 &&& 128 ≠ 0 then readLSB (v0 &&& 15) d2 else some (v0, d2)) with
          | none => none
          | some (validRaw, d3) =>
            let valid := if t = 0x56 then validRaw <<< 1
                         else if t = 0x57 then validRaw <<< 2 else validRaw
            match take_asn_int d3 with
            | none => none
            | some (count, d4) =>
              match take_asn_int d4 with
              | none => none
              | some (padding, d5) =>
                if count ≠ 0 ∧ count ≠ valid + padding then none
                else
                  (unpack ft (d5.drop (valid + padding))).map
                    (fun out => .arr (d5.take valid) :: out)
      else none
  | _ :: _, _ => none

/-- A registered callback: either a caller-supplied callable (identified by
an opaque tag) or the waiter-signalling closure that `execute` synthesises
when `is_async` is set and no callback is given (rpc.py lines 35-39). -/
inductive CB
  | user (tag : Nat)
  | waiterCb
deriving DecidableEq

/-- The dispatcher state owned by `XMMRPC` (rpc.py lines 19-22):
`callbacks` (a dict keyed by the 32-bit transaction word), the
`call_acknowledged` set, the shared `response` slot and the
`response_event` flag. -/
structure RPCState where
  callbacks : List (Nat × CB)
  call_acknowledged : List Nat
  response : Option (Nat × List Nat)
  response_event : Bool
deriving DecidableEq

/-- The state after `__init__`: empty tables, no response, event unset. -/
def initState : RPCState := ⟨[], [], none, false⟩

/-- Python `dict` assignment `d[k] = v`: any earlier binding of `k` is
superseded. -/
def dinsert (k : Nat) (v : CB) (l : List (Nat × CB)) : List (Nat × CB) :=
  (k, v) :: l.filter (fun p => p.1 != k)

/-- Python `dict.pop(k)` (key known present at the call sites). -/
def eraseKey (k : Nat) (l : List (Nat × CB)) : List (Nat × CB) :=
  l.filter (fun p => p.1 != k)

/-- Python `set.add`. -/
def sAdd (x : Nat) (l : List Nat) : List Nat := if x ∈ l then l else x :: l

/-- Python `set.remove` (element known present at the call site). -/
def sRemove (x : Nat) (l : List Nat) : List Nat := l.filter (fun y => y != x)

/-- `XMMRPC.handle_message(message)` (rpc.py lines 74-114), as a state
transition.  The fixed-offset slices `message[:4]`, `message[4:10]`,
`message[10:16]`, `message[16:20]`, `message[20:]` are modelled by the
20-byte pattern; any shorter message makes one of the slice-dependent
`assert`s or `struct.unpack` calls raise, hence `none`.  The result pairs
the new state with the list of callback invocations spawned (callback,
code, body with its leading 6 bytes stripped); `_l0`/`_l1` are only
compared for the logged framing warning. -/
def handle_message (s : RPCState) (message : List Nat) :
    Option (RPCState × List (CB × Nat × List Nat)) :=
  match message with
  | b0 :: b1 :: b2 :: b3 :: a0 :: a1 :: h1 :: h2 :: h3 :: h4 ::
    c0 :: c1 :: k1 :: k2 :: k3 :: k4 :: t0 :: t1 :: t2 :: t3 :: body =>
    -- assert len1_p.startswith(b'\x02\x04'); assert code_p.startswith(b'\x02\x04')
    if a0 = 2 ∧ a1 = 4 ∧ c0 = 2 ∧ c1 = 4 then
      let _l0 := b0 + b1 * 256 + b2 * 65536 + b3 * 16777216
      let _l1 := ((h1 * 256 + h2) * 256 + h3) * 256 + h4
      let code := ((k1 * 256 + k2) * 256 + k3) * 256 + k4
      let txid := ((t0 * 256 + t1) * 256 + t2) * 256 + t3
      if txid = 0 then some (s, [])          -- unsolicited: log only
      else if txid = 0x11000100 then         -- synchronous response
        some ({ s with response_event := true, response := some (code, body) }, [])
      else
        match s.callbacks.lookup txid with
        | none => some (s, [])               -- unexpected txid: log, drop
        | some cb =>
          if txid ∈ s.call_acknowledged then -- completion phase
            some ({ s with call_acknowledged := sRemove txid s.call_acknowledged,
                           callbacks := eraseKey txid s.callbacks },
                  [(cb, code, body.drop 6)])
          else                               -- acknowledgment phase
            some ({ s with call_acknowledged := sAdd txid s.call_acknowledged,
                           response := some (code, body), response_event := true }, [])
    else none
  | _ => none

/-- The header built by `XMMRPC.execute` (rpc.py lines 53-58):
`struct.pack('<L', total_length) + asn_int4(total_length) + asn_int4(cmd)
+ struct.pack('>L', tid_word)`, plus `asn_int4(tid)` when `tid != 0`,
with `total_length = len(body) + 16 (+6 if tid)` and
`tid_word = 0x11000100 | tid`. -/
def build_header (cmd tid : Nat) (body : List Nat) : List Nat :=
  let total_length := body.length + 16 + (if tid ≠ 0 then 6 else 0)
  let tid_word := 0x11000100 ||| tid
  le4 total_length ++ asn_int4 total_length ++ asn_int4 cmd ++ be4 tid_word
    ++ (if tid ≠ 0 then asn_int4 tid else [])

/-- The externally visible steps taken by `execute` on the calling thread,
in program order.  Blocking waits are recorded as explicit actions. -/
inductive Action
  | allocTid          -- tid = 0x11000100 | next(self.tid_gen)   (line 44)
  | registerPending   -- self.callbacks[tid_word] = callback     (line 51)
  | writeFrame        -- os.write(self.fp, header + body)        (line 63)
  | waitResponseEvent -- self.response_event.wait()              (line 66)
  | waitWaiter        -- waiter.wait()                           (line 70)
deriving DecidableEq

/-- `XMMRPC.execute(cmd, body, callback, is_async)` (rpc.py lines 34-72):
the caller-side state change, the bytes written to the transport, and the
trace of `Action`s performed before returning.  `tidIdx` indexes the cyclic
generator `itertools.cycle(range(1, 256))` (line 28), so the allocated
identifier byte is `tidIdx % 255 + 1`.  When `is_async` is set without a
callback, the synthesised waiter-signalling closure is registered and the
call additionally blocks on the waiter event. -/
def executeModel (s : RPCState) (tidIdx cmd : Nat) (body : List Nat)
    (callback : Option Nat) (is_async : Bool) : RPCState × List Nat × List Action :=
  let cbEff : Option CB :=
    match callback with
    | some c => some (.user c)
    | none => if is_async then some .waiterCb else none
  let hasWaiter : Bool := callback.isNone && is_async
  match cbEff with
  | some cb =>
    let tid := 0x11000100 ||| (tidIdx % 255 + 1)
    let tid_word := 0x11000100 ||| tid
    let header := build_header cmd tid body
    ({ s with callbacks := dinsert tid_word cb s.callbacks, response_event := false },
     header ++ body,
     [.allocTid, .registerPending, .writeFrame, .waitResponseEvent]
       ++ if hasWaiter then [.waitWaiter] else [])
  | none =>
    let header := build_header cmd 0 body
    ({ s with response_event := false }, header ++ body, [.writeFrame, .waitResponseEvent])

/-- Dispatcher states reachable from `__init__` under any interleaving of
outbound calls and inbound frames. -/
inductive Reachable : RPCState → Prop
  | init : Reachable initState
  | exec (s : RPCState) (tidIdx cmd : Nat) (body : List Nat) (callback : Option Nat)
      (is_async : Bool) (h : Reachable s) :
      Reachable (executeModel s tidIdx cmd body callback is_async).1
  | recv (s s' : RPCState) (message : List Nat) (invs : List (CB × Nat × List Nat))
      (h : Reachable s) (hm : handle_message s message = some (s', invs)) :
      Reachable s'

/-- An inbound frame with the given command code, transaction word and body,
laid out as `handle_message` expects (the length word, two generic-integer
fields, the big-endian transaction word, then the body). -/
def mkFrame (code txid : Nat) (body : List Nat) : List Nat :=
  le4 (body.length + 16) ++ asn_int4 (body.length + 16) ++ asn_int4 code
    ++ be4 txid ++ body

/-- `l0 = struct.unpack('<L', message[:4])[0]` (rpc.py lines 75 and 84): the
total length recovered when parsing a frame header. -/
def parse_total_length (message : List Nat) : Option Nat :=
  match message.take 4 with
  | [a, b, c, d] => some (a + b * 256 + c * 65536 + d * 16777216)
  | _ => none

/-- The decode format corresponding to an encode format: each scalar field
(`B`/`H`/`L`) is read back with the generic-integer specifier `n`, and each
array field (`s`/`S` with its element type and decimal capacity) with the
array specifier `s`. -/
def toUnpackFmt (fmt : List Char) : List Char :=
  match fmt with
  | [] => []
  | ch :: ft =>
    if ch = 's' then 's' :: toUnpackFmt (ft.dropWhile Char.isDigit)
    else if ch = 'S' then 's' :: toUnpackFmt (ft.tail.dropWhile Char.isDigit)
    else 'n' :: toUnpackFmt ft
termination_by fmt.length
decreasing_by
  all_goals simp only [List.length_cons, Nat.lt_succ_iff]
  · exact (List.dropWhile_sublist _).length_le
  · exact ((List.dropWhile_sublist _).trans (List.tail_sublist _)).length_le
  · exact Nat.le_refl _

/-- Validity of an array value against the capacity digits of its format, as
the claim states it: the digit prefix is present and the value is no longer
than the declared capacity (elements must also fit their width and the
slot/padding byte counts must be representable, or the encoder itself
rejects the pair). -/
def claimOkArr (esz : Nat) (v : List Nat) (ft : List Char) : Bool :=
  let ds := ft.takeWhile Char.isDigit
  !ds.isEmpty && v.length ≤ digitsToNat ds && digitsToNat ds * esz < 4294967296
    && v.all (· < 256 ^ esz)

/-- The claim's notion of a valid `(format, values)` pair: formats consumed
exactly, scalar integers within their declared width, arrays no longer than
their declared capacity. -/
def claimValid : List Char → List Value → Bool
  | [], [] => true
  | [], _ :: _ => false
  | _ :: _, [] => false
  | ch :: ft, a :: args =>
    if ch = 'B' then
      match a with
      | .i n => decide (n < 256) && claimValid ft args
      | .arr _ => false
    else if ch = 'H' then
      match a with
      | .i n => decide (n < 65536) && claimValid ft args
      | .arr _ => false
    else if ch = 'L' then
      match a with
      | .i n => decide (n < 4294967296) && claimValid ft args
      | .arr _ => false
    else if ch = 's' then
      match a with
      | .arr v => claimOkArr 1 v ft && claimValid (ft.dropWhile Char.isDigit) args
      | .i _ => false
    else if ch = 'S' then
      match a with
      | .arr v =>
        match ft with
        | et :: ft2 =>
          match elemSize et with
          | some esz => claimOkArr esz v ft2 && claimValid (ft2.dropWhile Char.isDigit) args
          | none => false
        | [] => false
      | .i _ => false
    else false

/-- The restriction under which the round-trip law actually holds: as
`claimValid`, but array fields must carry one-byte elements (`s`, or `S`
with element type `B`) and fewer than 256 occupied elements. -/
def okFmtVals : List Char → List Value → Bool
  | [], [] => true
  | [], _ :: _ => false
  | _ :: _, [] => false
  | ch :: ft, a :: args =>
    if ch = 'B' then
      match a with
      | .i n => decide (n < 256) && okFmtVals ft args
      | .arr _ => false
    else if ch = 'H' then
      match a with
      | .i n => decide (n < 65536) && okFmtVals ft args
      | .arr _ => false
    else if ch = 'L' then
      match a with
      | .i n => decide (n < 4294967296) && okFmtVals ft args
      | .arr _ => false
    else if ch = 's' then
      match a with
      | .arr v =>
        claimOkArr 1 v ft && decide (v.length < 256) && okFmtVals (ft.dropWhile Char.isDigit) args
      | .i _ => false
    else if ch = 'S' then
      match a with
      | .arr v =>
        match ft with
        | et :: ft2 =>
          if et = 'B' then
            claimOkArr 1 v ft2 && decide (v.length < 256)
              && okFmtVals (ft2.dropWhile Char.isDigit) args
          else false
        | [] => false
      | .i _ => false
    else false

/-! ### Supporting lemmas -/

theorem shl8_or (a b : Nat) (hb : b < 256) : (a <<< 8) ||| b = a * 256 + b :=
  calc a <<< 8 ||| b = 2 ^ 8 * a ||| b := by rw [Nat.shiftLeft_eq, Nat.mul_comm]
    _ = 2 ^ 8 * a + b := (Nat.mul_add_lt_is_or (by simpa using hb) a).symm
    _ = a * 256 + b := by ring

theorem take_asn_int_b (n : Nat) (tl : List Nat) (_h : n < 256) :
    take_asn_int (2 :: 1 :: n :: tl) = some (n, tl) := by
  simp [take_asn_int]

theorem take_asn_int_h (n : Nat) (tl : List Nat) (h : n < 65536) :
    take_asn_int (2 :: 2 :: be2 n ++ tl) = some (n, tl) := by
  have h1 : n / 256 % 256 < 256 := Nat.mod_lt _ (by norm_num)
  have h2 : n % 256 < 256 := Nat.mod_lt _ (by norm_num)
  simp [take_asn_int, be2, shl8_or, h1, h2]
  omega

theorem take_asn_int_l (n : Nat) (tl : List Nat) (h : n < 4294967296) :
    take_asn_int (asn_int4 n ++ tl) = some (n, tl) := by
  have h1 : n / 16777216 % 256 < 256 := Nat.mod_lt _ (by norm_num)
  have h2 : n / 65536 % 256 < 256 := Nat.mod_lt _ (by norm_num)
  have h3 : n / 256 % 256 < 256 := Nat.mod_lt _ (by norm_num)
  have h4 : n % 256 < 256 := Nat.mod_lt _ (by norm_num)
  simp [take_asn_int, asn_int4, be4, shl8_or, h1, h2, h3, h4]
  omega

theorem and128_eq_zero : ∀ n, n < 128 → n &&& 128 = 0 := by decide

theorem lsbBytesAux_zero (fuel : Nat) : lsbBytesAux fuel 0 = [] := by
  cases fuel <;> simp [lsbBytesAux]

theorem lsbBytes_small (n : Nat) (h0 : 0 < n) (h : n < 256) : lsbBytes n = [n] := by
  obtain ⟨m, rfl⟩ : ∃ m, n = m + 1 := ⟨n - 1, by omega⟩
  have hd : (m + 1) / 256 = 0 := Nat.div_eq_of_lt h
  simp [lsbBytes, lsbBytesAux, hd, lsbBytesAux_zero, Nat.mod_eq_of_lt h]

theorem packElems_one (v : List Nat) (h : ∀ e ∈ v, e < 256) : packElems 1 v = some v := by
  induction v with
  | nil => rfl
  | cons e t ih =>
    have he : e < 256 := h e (List.mem_cons_self e t)
    have : e / 1 % 256 = e := by omega
    simp [packElems, he, ih fun x hx => h x (List.mem_cons_of_mem _ hx), natLE,
      List.range_succ, this]

theorem natLE_length (esz e : Nat) : (natLE esz e).length = esz := by
  simp [natLE]

theorem packElems_some (esz : Nat) (v : List Nat) (h : ∀ e ∈ v, e < 256 ^ esz) :
    ∃ p, packElems esz v = some p ∧ p.length = v.length * esz := by
  induction v with
  | nil => exact ⟨[], rfl, by simp⟩
  | cons e t ih =>
    obtain ⟨p, hp, hl⟩ := ih fun x hx => h x (List.mem_cons_of_mem _ hx)
    refine ⟨natLE esz e ++ p, ?_, ?_⟩
    · simp [packElems, h e (List.mem_cons_self e t), hp]
    · simp [natLE_length, hl]; ring

/-- `_pack_string` on a byte array that fits its capacity: the exact field
layout. -/
theorem pack_string_eq (v : List Nat) (fmt : List Char) (c : Nat)
    (hds : fmt.takeWhile Char.isDigit ≠ [])
    (hc : digitsToNat (fmt.takeWhile Char.isDigit) = c)
    (hlen : v.length ≤ c) (hb : ∀ e ∈ v, e < 256) (hcw : c < 4294967296) :
    _pack_string v fmt 'B' =
      some (0x55 :: validField v.length ++ asn_int4 c ++ asn_int4 (c - v.length)
        ++ v ++ List.replicate (c - v.length) 0) := by
  have hnl : ¬ (v.length > c) := by omega
  have hpw : c - v.length < 4294967296 := by omega
  simp [_pack_string, hds, hc, hnl, elemSize, fieldTag, packElems_one v hb, hcw, hpw]

/-- `unpack` on an `'s'` field as produced by `_pack_string` for byte
elements (occupied `< 256`): it recovers exactly the occupied bytes and
continues after the padding. -/
theorem unpack_s_cons (ft : List Char) (v tl : List Nat) (cap : Nat)
    (hlen : v.length ≤ cap) (hv : v.length < 256) (hcap : cap < 4294967296) :
    unpack ('s' :: ft)
      (0x55 :: validField v.length ++ asn_int4 cap ++ asn_int4 (cap - v.length)
        ++ v ++ List.replicate (cap - v.length) 0 ++ tl) =
      (unpack ft tl).map (fun out => .arr v :: out) := by
  have hpw : cap - v.length < 4294967296 := by omega
  have ht1 : ∀ t, take_asn_int (asn_int4 cap ++ t) = some (cap, t) :=
    fun t => take_asn_int_l cap t hcap
  have ht2 : ∀ t, take_asn_int (asn_int4 (cap - v.length) ++ t) = some (cap - v.length, t) :=
    fun t => take_asn_int_l _ t hpw
  have hdrop : (v ++ (List.replicate (cap - v.length) 0 ++ tl)).drop (v.length + (cap - v.length))
      = tl := by
    rw [← List.append_assoc]
    exact List.drop_left' (by simp)
  have htake : (v ++ (List.replicate (cap - v.length) 0 ++ tl)).take v.length = v :=
    List.take_left' rfl
  have hcond : ¬ (cap ≠ 0 ∧ cap ≠ v.length + (cap - v.length)) := by omega
  by_cases hsm : v.length < 128
  · have hno : v.length &&& 128 = 0 := and128_eq_zero _ hsm
    simp only [validField, if_pos hsm, List.cons_append, List.singleton_append,
      List.nil_append, List.append_assoc]
    simp only [unpack, hno, ht1, ht2]
    simp [ht1, ht2, hcond, htake, hdrop]
  · have hlsb : lsbBytes v.length = [v.length] := lsbBytes_small _ (by omega) hv
    have hy : (129 : Nat) &&& 128 ≠ 0 := by decide
    simp only [validField, if_neg hsm, hlsb, List.length_singleton, List.reverse_singleton,
      List.cons_append, List.singleton_append, List.nil_append, List.append_assoc]
    norm_num
    simp only [unpack, hy, readLSB, ht1, ht2]
    simp [ht1, ht2, hcond, htake, hdrop]

theorem toUnpackFmt_nil : toUnpackFmt [] = [] := by rw [toUnpackFmt]

theorem toUnpackFmt_scalar (ch : Char) (ft : List Char) (h1 : ch ≠ 's') (h2 : ch ≠ 'S') :
    toUnpackFmt (ch :: ft) = 'n' :: toUnpackFmt ft := by
  rw [toUnpackFmt]
  simp [h1, h2]

theorem toUnpackFmt_s (ft : List Char) :
    toUnpackFmt ('s' :: ft) = 's' :: toUnpackFmt (ft.dropWhile Char.isDigit) := by
  rw [toUnpackFmt]
  simp

theorem toUnpackFmt_S (ft : List Char) :
    toUnpackFmt ('S' :: ft) = 's' :: toUnpackFmt (ft.tail.dropWhile Char.isDigit) := by
  rw [toUnpackFmt]
  simp

/-- The amended round-trip law, by strong induction on the format length. -/
theorem roundtrip_aux :
    ∀ n fmt args, List.length fmt ≤ n → okFmtVals fmt args = true →
      ∃ out, pack fmt args = some out ∧ unpack (toUnpackFmt fmt) out = some args := by
  intro n
  induction n with
  | zero =>
    intro fmt args hn hok
    match fmt, args with
    | [], [] => exact ⟨[], rfl, by rw [toUnpackFmt_nil]; rfl⟩
    | [], _ :: _ => simp [okFmtVals] at hok
    | _ :: _, _ => simp at hn
  | succ n ih =>
    intro fmt args hn hok
    match fmt, args with
    | [], [] => exact ⟨[], rfl, by rw [toUnpackFmt_nil]; rfl⟩
    | [], _ :: _ => simp [okFmtVals] at hok
    | ch :: ft, [] => simp [okFmtVals] at hok
    | ch :: ft, a :: args =>
      rcases a with m | v
      · by_cases hB : ch = 'B'
        · subst hB
          simp [okFmtVals] at hok
          obtain ⟨out, hp, hu⟩ := ih ft args (by simpa using hn) hok.2
          refine ⟨2 :: 1 :: m :: out, by simp [pack, hok.1, hp], ?_⟩
          rw [toUnpackFmt_scalar _ _ (by decide) (by decide)]
          simp [unpack, take_asn_int_b m out hok.1, hu]
        · by_cases hH : ch = 'H'
          · subst hH
            simp [okFmtVals] at hok
            obtain ⟨out, hp, hu⟩ := ih ft args (by simpa using hn) hok.2
            refine ⟨2 :: 2 :: be2 m ++ out, by simp [pack, hok.1, hp], ?_⟩
            rw [toUnpackFmt_scalar _ _ (by decide) (by decide)]
            simp only [unpack, take_asn_int_h m out hok.1, hu]
            rfl
          · by_cases hL : ch = 'L'
            · subst hL
              simp [okFmtVals] at hok
              obtain ⟨out, hp, hu⟩ := ih ft args (by simpa using hn) hok.2
              refine ⟨asn_int4 m ++ out, by simp [pack, hok.1, hp], ?_⟩
              rw [toUnpackFmt_scalar _ _ (by decide) (by decide)]
              simp only [unpack, take_asn_int_l m out hok.1, hu]
              rfl
            · exfalso
              simp [okFmtVals, hB, hH, hL] at hok
      · by_cases hs : ch = 's'
        · subst hs
          simp [okFmtVals] at hok
          obtain ⟨⟨hokArr, hv256⟩, hok2⟩ := hok
          simp only [claimOkArr, Bool.and_eq_true, decide_eq_true_eq] at hokArr
          obtain ⟨⟨⟨hds0, hlen⟩, hcw0⟩, hb⟩ := hokArr
          have hds : ft.takeWhile Char.isDigit ≠ [] := by
            intro hnil
            rw [hnil] at hds0
            simp at hds0
          have hcw : digitsToNat (ft.takeWhile Char.isDigit) < 4294967296 := by
            simpa using hcw0
          have hb' : ∀ e ∈ v, e < 256 := by
            intro e he
            simpa using List.all_eq_true.mp hb e he
          have hlt : (List.length (ft.dropWhile Char.isDigit)) ≤ n := by
            have := (List.dropWhile_sublist (l := ft) Char.isDigit).length_le
            simp at hn
            omega
          obtain ⟨out, hp, hu⟩ := ih (ft.dropWhile Char.isDigit) args hlt hok2
          set c := digitsToNat (ft.takeWhile Char.isDigit) with hcdef
          refine ⟨(0x55 :: validField v.length ++ asn_int4 c ++ asn_int4 (c - v.length)
            ++ v ++ List.replicate (c - v.length) 0) ++ out, ?_, ?_⟩
          · simp [pack, pack_string_eq v ft c hds hcdef.symm hlen hb' hcw, hp]
          · rw [toUnpackFmt_s]
            have := unpack_s_cons (toUnpackFmt (ft.dropWhile Char.isDigit)) v out c hlen hv256 hcw
            simp only [List.cons_append, List.append_assoc] at this ⊢
            rw [this, hu]
            rfl
        · by_cases hS : ch = 'S'
          · subst hS
            match ft with
            | [] => simp [okFmtVals] at hok
            | et :: ft2 =>
              by_cases het : et = 'B'
              · subst het
                simp [okFmtVals] at hok
                obtain ⟨⟨hokArr, hv256⟩, hok2⟩ := hok
                simp only [claimOkArr, Bool.and_eq_true, decide_eq_true_eq] at hokArr
                obtain ⟨⟨⟨hds0, hlen⟩, hcw0⟩, hb⟩ := hokArr
                have hds : ft2.takeWhile Char.isDigit ≠ [] := by
                  intro hnil
                  rw [hnil] at hds0
                  simp at hds0
                have hcw : digitsToNat (ft2.takeWhile Char.isDigit) < 4294967296 := by
                  simpa using hcw0
                have hb' : ∀ e ∈ v, e < 256 := by
                  intro e he
                  simpa using List.all_eq_true.mp hb e he
                have hlt : (List.length (ft2.dropWhile Char.isDigit)) ≤ n := by
                  have := (List.dropWhile_sublist (l := ft2) Char.isDigit).length_le
                  simp at hn
                  omega
                obtain ⟨out, hp, hu⟩ := ih (ft2.dropWhile Char.isDigit) args hlt hok2
                set c := digitsToNat (ft2.takeWhile Char.isDigit) with hcdef
                refine ⟨(0x55 :: validField v.length ++ asn_int4 c ++ asn_int4 (c - v.length)
                  ++ v ++ List.replicate (c - v.length) 0) ++ out, ?_, ?_⟩
                · simp [pack, pack_string_eq v ft2 c hds hcdef.symm hlen hb' hcw, hp]
                · rw [toUnpackFmt_S]
                  have := unpack_s_cons (toUnpackFmt (ft2.dropWhile Char.isDigit)) v out c
                    hlen hv256 hcw
                  simp only [List.cons_append, List.append_assoc, List.tail_cons] at this ⊢
                  rw [this, hu]
                  rfl
              · exfalso
                simp [okFmtVals, het] at hok
          · exfalso
            simp [okFmtVals, hs, hS] at hok

/-- Dispatch of `handle_message` on a well-formed frame, by transaction-word
value. -/
theorem handle_mkFrame (s : RPCState) (code txid : Nat) (body : List Nat)
    (hc : code < 4294967296) (ht : txid < 4294967296) :
    handle_message s (mkFrame code txid body) =
      (if txid = 0 then some (s, [])
       else if txid = 0x11000100 then
         some ({ s with response_event := true, response := some (code, body) }, [])
       else
         match s.callbacks.lookup txid with
         | none => some (s, [])
         | some cb =>
           if txid ∈ s.call_acknowledged then
             some ({ s with call_acknowledged := sRemove txid s.call_acknowledged,
                            callbacks := eraseKey txid s.callbacks },
                   [(cb, code, body.drop 6)])
           else
             some ({ s with call_acknowledged := sAdd txid s.call_acknowledged,
                            response := some (code, body), response_event := true }, [])) := by
  have e1 : ((code / 16777216 % 256 * 256 + code / 65536 % 256) * 256 + code / 256 % 256) * 256
      + code % 256 = code := by omega
  have e2 : ((txid / 16777216 % 256 * 256 + txid / 65536 % 256) * 256 + txid / 256 % 256) * 256
      + txid % 256 = txid := by omega
  unfold mkFrame le4 asn_int4 be4
  simp only [List.cons_append, List.nil_append]
  simp only [handle_message, e1, e2]
  norm_num

/-! ### Claim theorems -/

/-- Claim C1: two-phase transaction lifecycle.  For a transaction word
registered in the pending-call table (such words are nonzero and distinct
from the bare channel base, see C10) and not yet acknowledged, the first
inbound frame carrying it spawns no callback, leaves the table entry in
place and marks the word acknowledged; the second inbound frame carrying it
invokes the registered callback exactly once, with the leading 6 bytes of
the body stripped, after which the word is absent from both the callback
table and the acknowledged set. -/
theorem c1_two_phase_lifecycle (s : RPCState) (txid code1 code2 : Nat)
    (body1 body2 : List Nat) (cb : CB)
    (ht : txid < 4294967296) (h0 : txid ≠ 0) (hbase : txid ≠ 0x11000100)
    (hcb : s.callbacks.lookup txid = some cb)
    (hna : txid ∉ s.call_acknowledged)
    (hc1 : code1 < 4294967296) (hc2 : code2 < 4294967296) :
    ∃ s1, handle_message s (mkFrame code1 txid body1) = some (s1, []) ∧
      s1.callbacks.lookup txid = some cb ∧
      txid ∈ s1.call_acknowledged ∧
      ∃ s2, handle_message s1 (mkFrame code2 txid body2) =
          some (s2, [(cb, code2, body2.drop 6)]) ∧
        s2.callbacks.lookup txid = none ∧
        txid ∉ s2.call_acknowledged := by
  rw [handle_mkFrame s code1 txid body1 hc1 ht]
  simp only [if_neg h0, if_neg hbase, hcb, if_neg hna]
  refine ⟨_, rfl, hcb, ?_, ?_⟩
  · simp [sAdd, hna]
  · rw [handle_mkFrame _ code2 txid body2 hc2 ht]
    simp only [if_neg h0, if_neg hbase, hcb]
    have hmem : txid ∈ sAdd txid s.call_acknowledged := by simp [sAdd, hna]
    simp only [hmem, if_pos]
    refine ⟨_, rfl, ?_, ?_⟩
    · simp only [eraseKey, List.lookup_eq_none_iff, List.mem_filter]
      rintro ⟨a, b⟩ ⟨_, hne⟩
      simp at hne ⊢
      omega
    · simp [sRemove]

/-- Claim C4: header consistency.  Parsing the frame built from any command
code, transaction identifier and body recovers a total length equal to
`len(body) + 16`, plus 6 more when the identifier is nonzero; and that total
length plus 4 equals the byte length of header plus body (the `assert` on
rpc.py line 60). -/
theorem c4_header_consistency (cmd tid : Nat) (body : List Nat)
    (hb : body.length + 22 < 4294967296) :
    parse_total_length (build_header cmd tid body ++ body) =
      some (body.length + 16 + (if tid ≠ 0 then 6 else 0)) ∧
    (body.length + 16 + (if tid ≠ 0 then 6 else 0)) + 4 =
      (build_header cmd tid body).length + body.length := by
  constructor
  · by_cases h : tid = 0 <;>
      simp [build_header, parse_total_length, le4, h] <;> omega
  · by_cases h : tid = 0 <;>
      simp [build_header, le4, asn_int4, be4, h] <;> omega

/-- Claim C7: unknown-identifier frames are inert.  A frame whose nonzero
transaction word differs from the bare channel base and matches no
pending-call entry leaves the whole dispatcher state — callback table,
acknowledged set, shared response slot and event — unchanged, and spawns no
callback. -/
theorem c7_unknown_txid_inert (s : RPCState) (code txid : Nat) (body : List Nat)
    (hc : code < 4294967296) (ht : txid < 4294967296)
    (h0 : txid ≠ 0) (hbase : txid ≠ 0x11000100)
    (hun : s.callbacks.lookup txid = none) :
    handle_message s (mkFrame code txid body) = some (s, []) := by
  rw [handle_mkFrame s code txid body hc ht]
  simp [h0, hbase, hun]

/-- Claim C2, as stated, is false: the pair below is valid in the claim's
sense (the array is no longer than its declared capacity of one two-byte
element), the encoder accepts it, but decoding returns the raw two payload
bytes rather than the original element list. -/
theorem c2_roundtrip_counterexample :
    claimValid ['S', 'H', '1'] [Value.arr [1]] = true ∧
    (pack ['S', 'H', '1'] [Value.arr [1]]).isSome = true ∧
    unpack (toUnpackFmt ['S', 'H', '1']) ((pack ['S', 'H', '1'] [Value.arr [1]]).getD [])
      ≠ some [Value.arr [1]] := by
  refine ⟨by decide, by decide, ?_⟩
  have h : toUnpackFmt ['S', 'H', '1'] = ['s'] := by
    rw [toUnpackFmt_S]
    have h2 : (List.tail ['H', '1']).dropWhile Char.isDigit = [] := by decide
    rw [h2, toUnpackFmt_nil]
  rw [h]
  decide

/-- Claim C2 (amended): the codec round-trip law holds for every valid pair
whose array fields carry one-byte elements (`s`, or `S` with element type
`B`) and fewer than 256 occupied elements; decoding under the corresponding
format the bytes produced by encoding yields the original values. -/
theorem c2_roundtrip_amended (fmt : List Char) (args : List Value)
    (hok : okFmtVals fmt args = true) :
    ∃ out, pack fmt args = some out ∧ unpack (toUnpackFmt fmt) out = some args :=
  roundtrip_aux fmt.length fmt args (Nat.le_refl _) hok

theorem c2_roundtrip_witness :
    okFmtVals ['B', 's', '2', 'H'] [Value.i 7, Value.arr [1, 2], Value.i 999] = true ∧
    ∃ out, pack ['B', 's', '2', 'H'] [Value.i 7, Value.arr [1, 2], Value.i 999] = some out ∧
      unpack (toUnpackFmt ['B', 's', '2', 'H']) out =
        some [Value.i 7, Value.arr [1, 2], Value.i 999] :=
  ⟨by decide, c2_roundtrip_amended _ _ (by decide)⟩

/-- Claim C3, as stated, is false: the call that registers a callback does
not return immediately after writing the frame — its trace contains the
blocking `response_event.wait()` step (rpc.py line 66), so it waits for an
inbound frame to signal the response event. -/
theorem c3_returns_immediately_counterexample :
    Action.waitResponseEvent ∈ (executeModel initState 0 66 [] (some 5) false).2.2 ∧
    (executeModel initState 0 66 [] (some 5) false).2.2 ≠
      [Action.allocTid, Action.registerPending, Action.writeFrame] := by
  constructor
  · decide
  · decide

/-- Claim C3 (amended): for every command code, body and callback, the
call allocates the next identifier from the cyclic 1..255 generator,
registers a pending-call entry, writes the framed message to the transport,
and then blocks on the response event — which only an inbound frame sets —
before returning. -/
theorem c3_call_with_callback (s : RPCState) (tidIdx cmd : Nat) (body : List Nat) (c : Nat) :
    executeModel s tidIdx cmd body (some c) false =
      ({ s with
          callbacks := dinsert (0x11000100 ||| (0x11000100 ||| (tidIdx % 255 + 1)))
            (CB.user c) s.callbacks,
          response_event := false },
       build_header cmd (0x11000100 ||| (tidIdx % 255 + 1)) body ++ body,
       [Action.allocTid, Action.registerPending, Action.writeFrame,
        Action.waitResponseEvent]) := rfl

/-- Claim C5: array capacity enforcement.  Encoding a byte array longer than
the declared capacity `c` fails; encoding one of exactly length `c` succeeds
with a padding byte count of zero and no trailing zero padding bytes (the
encoded field ends with the payload itself). -/
theorem c5_capacity_enforcement (v w : List Nat) (fmt : List Char) (c : Nat)
    (hds : fmt.takeWhile Char.isDigit ≠ [])
    (hc : digitsToNat (fmt.takeWhile Char.isDigit) = c)
    (hcw : c < 4294967296) :
    (v.length > c → _pack_string v fmt 'B' = none) ∧
    (w.length = c → (∀ e ∈ w, e < 256) →
      _pack_string w fmt 'B' =
        some (0x55 :: validField c ++ asn_int4 c ++ asn_int4 0 ++ w)) := by
  constructor
  · intro hv
    simp [_pack_string, hds, hc, hv]
  · intro hw hb
    rw [pack_string_eq w fmt c hds hc (Nat.le_of_eq hw) hb hcw, hw]
    simp

/-- Claim C6: array-field decoding length cross-check.  With a nonzero
decoded slot byte count, decoding fails unless it equals occupied bytes plus
padding bytes; with a zero slot count no cross-check applies; whenever
decoding succeeds it returns exactly the occupied bytes as the payload and
advances the cursor past payload plus padding (observed here by a trailing
generic-integer field). -/
theorem c6_slot_count_crosscheck (t validByte count padding m : Nat)
    (payload pad : List Nat)
    (ht : t = 0x55 ∨ t = 0x56 ∨ t = 0x57) (hvb : validByte < 128)
    (hcount : count < 4294967296) (hpadding : padding < 4294967296) (hm : m < 4294967296)
    (hpl : payload.length =
      (if t = 0x56 then validByte * 2 else if t = 0x57 then validByte * 4 else validByte))
    (hpad : pad.length = padding) :
    unpack ['s', 'n'] (t :: validByte :: asn_int4 count ++ asn_int4 padding
        ++ payload ++ pad ++ asn_int4 m) =
      (if count ≠ 0 ∧ count ≠ payload.length + padding then none
       else some [Value.arr payload, Value.i m]) := by
  have hno : validByte &&& 128 = 0 := and128_eq_zero _ hvb
  have ht1 : ∀ tl, take_asn_int (asn_int4 count ++ tl) = some (count, tl) :=
    fun tl => take_asn_int_l _ tl hcount
  have ht2 : ∀ tl, take_asn_int (asn_int4 padding ++ tl) = some (padding, tl) :=
    fun tl => take_asn_int_l _ tl hpadding
  have ht3 : take_asn_int (asn_int4 m) = some (m, []) := by
    simpa using take_asn_int_l m [] hm
  have hscale : (if t = 0x56 then validByte <<< 1
      else if t = 0x57 then validByte <<< 2 else validByte) = payload.length := by
    rw [hpl]
    split_ifs <;> simp [Nat.shiftLeft_eq]
  have htake : (payload ++ (pad ++ asn_int4 m)).take payload.length = payload :=
    List.take_left' rfl
  have hdrop : (payload ++ (pad ++ asn_int4 m)).drop (payload.length + padding) = asn_int4 m := by
    rw [← List.append_assoc]
    exact List.drop_left' (by simp [hpad])
  simp only [List.append_assoc, List.cons_append, List.nil_append]
  simp only [unpack, if_pos ht, hno]
  norm_num
  simp only [hscale, ht1, ht2]
  by_cases hcond : count ≠ 0 ∧ count ≠ payload.length + padding
  · simp [hcond]
  · simp only [hcond, if_neg, if_false, htake, hdrop]
    simp [unpack, ht3, hcond]

set_option maxRecDepth 4000 in
/-- Claim C8: extended occupied-count form.  Encoding an array with exactly
130 occupied one-byte elements (capacity 130) produces, immediately after
the element-type tag `0x55`, a lead byte `0x81` followed by one length byte
equal to 130. -/
theorem c8_extended_length_form :
    ((pack ['s', '1', '3', '0'] [Value.arr (List.replicate 130 7)]).getD []).take 3
      = [0x55, 0x81, 130] ∧
    (pack ['s', '1', '3', '0'] [Value.arr (List.replicate 130 7)]).isSome = true := by
  constructor
  · decide
  · decide

/-- Claim C9: the wire size of an encoded array field is determined by the
declared capacity, not the value.  For a value with fewer than 128 occupied
elements that fits the capacity `c`, the encoded field occupies exactly
1 type-tag byte, 1 count byte, 12 bytes of generic-integer length fields,
and `c * element_width` bytes of payload plus zero padding. -/
theorem c9_field_size_from_capacity (v : List Nat) (fmt : List Char) (et : Char) (esz c : Nat)
    (he : elemSize et = some esz)
    (hds : fmt.takeWhile Char.isDigit ≠ [])
    (hc : digitsToNat (fmt.takeWhile Char.isDigit) = c)
    (hlen : v.length ≤ c) (hsm : v.length < 128)
    (hb : ∀ e ∈ v, e < 256 ^ esz) (hcw : c * esz < 4294967296) :
    ∃ field, _pack_string v fmt et = some field ∧ field.length = 1 + 1 + 12 + c * esz := by
  have hesz : esz = 1 ∨ esz = 2 ∨ esz = 4 := by
    unfold elemSize at he
    split at he <;> simp_all
  obtain ⟨p, hp, hplen⟩ := packElems_some esz v hb
  have hftag : fieldTag esz = some (if esz = 1 then 0x55 else if esz = 2 then 0x56 else 0x57) := by
    rcases hesz with h | h | h <;> subst h <;> rfl
  have hnl : ¬ (v.length > c) := by omega
  have hpadw : (c - v.length) * esz < 4294967296 := by
    have : (c - v.length) * esz ≤ c * esz := Nat.mul_le_mul_right _ (Nat.sub_le _ _)
    omega
  refine ⟨(if esz = 1 then 0x55 else if esz = 2 then 0x56 else 0x57) :: validField v.length
      ++ asn_int4 (c * esz) ++ asn_int4 ((c - v.length) * esz) ++ p
      ++ List.replicate ((c - v.length) * esz) 0, ?_, ?_⟩
  · simp [_pack_string, hds, hc, hnl, he, hftag, hp, hcw, hpadw]
  · simp only [validField, if_pos hsm, List.cons_append, List.singleton_append,
      List.length_cons, List.length_append, List.length_replicate, hplen, asn_int4, be4,
      List.length_nil]
    rcases hesz with h | h | h <;> subst h <;> simp <;> omega

set_option maxRecDepth 4000 in
theorem or_small : ∀ id, id < 256 → 0x11000100 ||| id = 0x11000100 + id := by decide

/-- Processing an inbound frame never adds a callback-table entry: the
resulting table is a sub-collection of the previous one. -/
theorem handle_message_callbacks_subset (s s' : RPCState) (message : List Nat)
    (invs : List (CB × Nat × List Nat))
    (hm : handle_message s message = some (s', invs)) :
    ∀ p ∈ s'.callbacks, p ∈ s.callbacks := by
  unfold handle_message at hm
  split at hm
  · split at hm
    · dsimp only at hm
      split at hm
      · cases hm
        exact fun p hp => hp
      · split at hm
        · cases hm
          exact fun p hp => hp
        · split at hm
          · cases hm
            exact fun p hp => hp
          · split at hm
            · cases hm
              exact fun p hp => List.mem_of_mem_filter hp
            · cases hm
              exact fun p hp => hp
    · cases hm
  · cases hm

/-- Claim C10: every key ever stored in the pending-call table is the
channel base `0x11000100` OR'ed with an identifier byte in `[1, 255]`;
consequently no key equals the bare base value or zero, so a synchronous
response (bare base tag) or an unsolicited frame (zero tag) can never match
a pending asynchronous transaction. -/
theorem c10_table_key_invariant (s : RPCState) (h : Reachable s) :
    ∀ p ∈ s.callbacks,
      (∃ id, 1 ≤ id ∧ id ≤ 255 ∧ p.1 = 0x11000100 ||| id) ∧
      p.1 ≠ 0x11000100 ∧ p.1 ≠ 0 := by
  induction h with
  | init =>
    intro p hp
    simp [initState] at hp
  | exec s2 tidIdx cmd body callback is_async hr ih =>
    have key : ∀ (cbv : CB) (p : Nat × CB),
        p ∈ dinsert (0x11000100 ||| (0x11000100 ||| (tidIdx % 255 + 1))) cbv s2.callbacks →
        (∃ id, 1 ≤ id ∧ id ≤ 255 ∧ p.1 = 0x11000100 ||| id) ∧
        p.1 ≠ 0x11000100 ∧ p.1 ≠ 0 := by
      intro cbv p hp
      simp only [dinsert, List.mem_cons, List.mem_filter] at hp
      rcases hp with rfl | ⟨hp, _⟩
      · have hor : (0x11000100 : Nat) ||| (0x11000100 ||| (tidIdx % 255 + 1))
            = 0x11000100 ||| (tidIdx % 255 + 1) := by
          rw [← Nat.or_assoc, Nat.or_self]
        have hplus := or_small (tidIdx % 255 + 1) (by omega)
        refine ⟨⟨tidIdx % 255 + 1, by omega, by omega, hor⟩, ?_, ?_⟩
        · show (0x11000100 : Nat) ||| (0x11000100 ||| (tidIdx % 255 + 1)) ≠ 0x11000100
          rw [hor, hplus]
          omega
        · show (0x11000100 : Nat) ||| (0x11000100 ||| (tidIdx % 255 + 1)) ≠ 0
          rw [hor, hplus]
          omega
      · exact ih p hp
    rcases callback with _ | c
    · rcases is_async with _ | _
      · simpa [executeModel] using ih
      · intro p hp
        simp only [executeModel, Option.isNone_none, Bool.true_and] at hp
        exact key _ p hp
    · intro p hp
      simp only [executeModel, Option.isNone_some, Bool.false_and] at hp
      exact key _ p hp
  | recv s2 s3 message invs hr hm ih =>
    intro p hp
    exact ih p (handle_message_callbacks_subset s2 s3 message invs hm p hp)

/-! ### Witnesses -/

theorem c1_witness :
    ∃ s1, handle_message ⟨[(0x11000105, CB.user 7)], [], none, false⟩
        (mkFrame 2 0x11000105 [1, 2]) = some (s1, []) ∧
      s1.callbacks.lookup 0x11000105 = some (CB.user 7) ∧
      (0x11000105 : Nat) ∈ s1.call_acknowledged ∧
      ∃ s2, handle_message s1 (mkFrame 3 0x11000105 [9, 9, 9, 9, 9, 9, 4, 5]) =
          some (s2, [(CB.user 7, 3, List.drop 6 [9, 9, 9, 9, 9, 9, 4, 5])]) ∧
        s2.callbacks.lookup 0x11000105 = none ∧
        (0x11000105 : Nat) ∉ s2.call_acknowledged :=
  c1_two_phase_lifecycle ⟨[(0x11000105, CB.user 7)], [], none, false⟩
    0x11000105 2 3 [1, 2] [9, 9, 9, 9, 9, 9, 4, 5] (CB.user 7)
    (by decide) (by decide) (by decide) (by decide) (by decide) (by decide) (by decide)

theorem c4_witness :
    parse_total_length (build_header 66 285212935 [5] ++ [5]) =
      some (List.length [5] + 16 + (if (285212935 : Nat) ≠ 0 then 6 else 0)) ∧
    (List.length [5] + 16 + (if (285212935 : Nat) ≠ 0 then 6 else 0)) + 4 =
      (build_header 66 285212935 [5]).length + List.length [5] :=
  c4_header_consistency 66 285212935 [5] (by decide)

theorem c5_witness :
    (List.length [1, 2, 3] > 2 → _pack_string [1, 2, 3] ['2'] 'B' = none) ∧
    (List.length [8, 9] = 2 → (∀ e ∈ [8, 9], e < 256) →
      _pack_string [8, 9] ['2'] 'B' =
        some (0x55 :: validField 2 ++ asn_int4 2 ++ asn_int4 0 ++ [8, 9])) :=
  c5_capacity_enforcement [1, 2, 3] [8, 9] ['2'] 2 (by decide) (by decide) (by decide)

theorem c6_witness :
    unpack ['s', 'n'] (0x55 :: 2 :: asn_int4 3 ++ asn_int4 1 ++ [7, 8] ++ [0] ++ asn_int4 9) =
      (if (3 : Nat) ≠ 0 ∧ (3 : Nat) ≠ List.length [7, 8] + 1 then none
       else some [Value.arr [7, 8], Value.i 9]) :=
  c6_slot_count_crosscheck 0x55 2 3 1 9 [7, 8] [0]
    (by decide) (by decide) (by decide) (by decide) (by decide) (by decide) (by decide)

theorem c7_witness :
    handle_message ⟨[(0x11000105, CB.user 7)], [0x11000105], some (1, [2]), true⟩
        (mkFrame 2 0x11000133 [1, 2]) =
      some (⟨[(0x11000105, CB.user 7)], [0x11000105], some (1, [2]), true⟩, []) :=
  c7_unknown_txid_inert ⟨[(0x11000105, CB.user 7)], [0x11000105], some (1, [2]), true⟩
    2 0x11000133 [1, 2] (by decide) (by decide) (by decide) (by decide) (by decide)

theorem c9_witness :
    ∃ field, _pack_string [5] ['3'] 'H' = some field ∧
      field.length = 1 + 1 + 12 + 3 * 2 :=
  c9_field_size_from_capacity [5] ['3'] 'H' 2 3 (by decide) (by decide) (by decide)
    (by decide) (by decide) (by decide) (by decide)

theorem c10_witness :
    (∃ id, 1 ≤ id ∧ id ≤ 255 ∧
        ((0x11000101, CB.user 1) : Nat × CB).1 = 0x11000100 ||| id) ∧
      ((0x11000101, CB.user 1) : Nat × CB).1 ≠ 0x11000100 ∧
      ((0x11000101, CB.user 1) : Nat × CB).1 ≠ 0 :=
  c10_table_key_invariant _ (Reachable.exec initState 0 0 [] (some 1) false Reachable.init)
    (0x11000101, CB.user 1) (by decide)

end XmmRpc
